import Mathlib

/-!
# Fractal viewer: viewport transform, uniform sync and FPS sampler

A shallow embedding of `src/App/Window.cpp` / `src/App/Window.h`.

Conventions of the embedding

* `GLfloat` / `qreal` quantities are rationals (`ℚ`).  Where single precision decides a
  discrete result it is modelled by `f32`, the IEEE 754 binary32 rounding (to nearest, ties
  to even): the
  integer-to-float conversions of `onResize`, and every conversion and division of the FPS
  computation in `captureMetrics`, whose result goes through `std::round`.  The coordinate
  arithmetic of `wheelEvent` and `mouseMoveEvent` is exact arithmetic.  Division by zero
  (which yields `inf`/`NaN` in the program) is outside the model; the theorems about the
  coordinates computed by `wheelEvent` and `mouseMoveEvent` carry the positivity of the
  divisors (resolution components, zoom) as hypotheses.
* Machine integers are `Nat` / `Int`; the two places where a width matters (the wrap of
  `++frameCount_`, the narrowing to `GLint`) reduce explicitly.
* The member functions of `Window` become functions `Window → … → Window`.  Calls into
  the OpenGL / Qt collaborators are recorded, in program order, at the end of the
  `effects` field of the state.
* Clock readings (`QDateTime::currentMSecsSinceEpoch()`, `QElapsedTimer`) are inputs.
-/

namespace FractalViewer

/-! ## Qt value types -/

/-- Point with real coordinates (`QPointF`). -/
structure QPointF where
  x : ℚ
  y : ℚ
deriving DecidableEq

/-- Point with integer coordinates (`QPoint`). -/
structure QPoint where
  x : Int
  y : Int
deriving DecidableEq

instance : Add QPointF := ⟨fun a b => ⟨a.x + b.x, a.y + b.y⟩⟩

instance : Sub QPointF := ⟨fun a b => ⟨a.x - b.x, a.y - b.y⟩⟩

instance : HMul ℚ QPointF QPointF := ⟨fun c p => ⟨p.x * c, p.y * c⟩⟩

instance : HDiv QPointF ℚ QPointF := ⟨fun p c => ⟨p.x / c, p.y / c⟩⟩

instance : Sub QPoint := ⟨fun a b => ⟨a.x - b.x, a.y - b.y⟩⟩

/-- Implicit conversion `QPoint → QPointF`. -/
def QPoint.toPointF (p : QPoint) : QPointF := ⟨(p.x : ℚ), (p.y : ℚ)⟩

/-- Value of `Qt::LeftButton` in the `Qt::MouseButton` flag enumeration. -/
def Qt.LeftButton : Nat := 1

/-- The parts of a `QMouseEvent` the handlers read. -/
structure QMouseEvent where
  /-- The button that caused the event, `event->button()`. -/
  button : Nat
  /-- The mask of buttons held while the event was generated, `event->buttons()`. -/
  buttons : Nat
  /-- Cursor position, `event->pos()`. -/
  pos : QPoint
deriving DecidableEq

/-- The parts of a `QWheelEvent` the handler reads. -/
structure QWheelEvent where
  /-- Cursor position, `event->position()`. -/
  position : QPointF
  /-- Scroll amount, `event->angleDelta()`: `x` horizontal, `y` vertical. -/
  angleDelta : QPoint
deriving DecidableEq

/-! ## Observable effects -/

/-- Argument of a `setUniformValue` call. -/
inductive UniformValue where
  | vec2 (v : QPointF)
  | float (v : ℚ)
  | int (v : Int)
deriving DecidableEq

/-- Calls made to the graphics / GUI collaborators. -/
inductive Effect where
  | glClear
  | glViewport (x y width height : Int)
  | bindContext
  | programBind
  | programRelease
  | vaoBind
  | vaoRelease
  | setUniformValue (location : Int) (value : UniformValue)
  | glDrawElements (count : Nat)
  | setIterationsLabel (value : Int)
  | update
  | updateUI
deriving DecidableEq

/-! ## State -/

/-- The viewport state, `struct Info`. -/
structure Info where
  resolution : QPointF
  offset : QPointF
  zoom : ℚ
  maxIterations : Int
deriving DecidableEq

/-- The data members of `class Window` that the modelled member functions use. -/
structure Window where
  lastMousePos_ : QPoint
  isPanning_ : Bool
  resolutionUniform_ : Int
  offsetUniform_ : Int
  zoomUniform_ : Int
  timeUniform_ : Int
  maxIterationsUniform_ : Int
  info : Info
  /-- The shader program: `none` while the `unique_ptr` is null, `some linked` once created,
  where `linked` is the answer of `isLinked()`. -/
  program_ : Option Bool
  /-- The tick (milliseconds, monotonic clock) at which `timer_` was last (re)started. -/
  timer_ : Int
  frameCount_ : Nat
  /-- The field `ui_.fps`. -/
  fps : Nat
  animated_ : Bool
  /-- Collaborator calls made so far, oldest first. -/
  effects : List Effect
deriving DecidableEq

/-- Record one collaborator call. -/
def Window.emit (w : Window) (e : Effect) : Window :=
  { w with effects := w.effects ++ [e] }

/-- The index buffer of the full-screen quad, `indices`. -/
def indices : List Nat := [0, 1, 2, 0, 3, 1]

/-- The constructor `Window::Window()`, run while the monotonic clock reads `tick`. -/
def Window.new (tick : Int) : Window :=
  { lastMousePos_ := ⟨0, 0⟩
    isPanning_ := false
    resolutionUniform_ := -1
    offsetUniform_ := -1
    zoomUniform_ := -1
    timeUniform_ := -1
    maxIterationsUniform_ := -1
    info := { resolution := ⟨640, 480⟩, offset := ⟨0, 0⟩, zoom := 1, maxIterations := 100 }
    program_ := none
    timer_ := tick
    frameCount_ := 0
    fps := 0
    animated_ := true
    effects := [] }

/-! ## Uniform sync and the render loop -/

/-- The member function `Window::updateUniform`; `msecsSinceEpoch` is the reading of
`QDateTime::currentMSecsSinceEpoch()` (a signed 64-bit count, `%` truncates toward zero). -/
def updateUniform (w : Window) (msecsSinceEpoch : Int) : Window :=
  if w.program_ = some true then
    let w := if w.resolutionUniform_ ≠ -1 then
        w.emit (.setUniformValue w.resolutionUniform_ (.vec2 w.info.resolution)) else w
    let w := if w.offsetUniform_ ≠ -1 then
        w.emit (.setUniformValue w.offsetUniform_ (.vec2 w.info.offset)) else w
    let w := if w.zoomUniform_ ≠ -1 then
        w.emit (.setUniformValue w.zoomUniform_ (.float w.info.zoom)) else w
    let w := if w.timeUniform_ ≠ -1 then
        let time : ℚ := ((Int.tmod msecsSinceEpoch (31415 * 2) : Int) : ℚ)
        w.emit (.setUniformValue w.timeUniform_ (.float time)) else w
    let w := if w.maxIterationsUniform_ ≠ -1 then
        w.emit (.setUniformValue w.maxIterationsUniform_ (.int w.info.maxIterations)) else w
    w
  else w

/-- The function `std::round`: nearest integer, halfway cases away from zero. -/
def stdRound (x : ℚ) : Int :=
  if 0 ≤ x then ⌊x + 1 / 2⌋ else ⌈x - 1 / 2⌉

/-- Nearest integer, halfway cases to the even neighbour. -/
def roundTiesEven (m : ℚ) : Int :=
  if m - ⌊m⌋ < 1 / 2 then ⌊m⌋
  else if 1 / 2 < m - ⌊m⌋ then ⌊m⌋ + 1
  else if ⌊m⌋ % 2 = 0 then ⌊m⌋ else ⌊m⌋ + 1

/-- The value a real number takes when stored in a `float` (IEEE 754 binary32, round to
nearest, ties to even): 24 significant bits, least exponent `-126` (below it the spacing
stays `2 ^ (-149)`).  Magnitudes from `2 ^ 128 - 2 ^ 103` on, which become infinite in the
program, are outside the model; no 64-bit integer and no quotient formed below reaches
them. -/
def f32 (x : ℚ) : ℚ :=
  if x = 0 then 0
  else
    let exponent : Int := max (Int.log 2 |x|) (-126)
    let ulp : ℚ := (2 : ℚ) ^ (exponent - 23)
    (roundTiesEven (x / ulp) : ℚ) * ulp

/-- The callback that `Window::captureMetrics` hands to the guard, which runs it when the
guard is destroyed.  `tickElapsed` is the reading of the monotonic clock seen by
`timer_.elapsed()`, `tickRestart` the reading seen by the later `timer_.restart()`.  The
frame count and the elapsed milliseconds are converted to `float`, and both divisions are
`float` divisions; `std::round` of a `float` is exact.  (The conversion of the rounded value
to `size_t` is defined below `2 ^ 64`, which every frame count under `2 ^ 64 - 2 ^ 39`
guarantees.) -/
def captureMetrics (w : Window) (tickElapsed tickRestart : Int) : Window :=
  if tickElapsed - w.timer_ ≥ 1000 then
    let elapsedSeconds : ℚ := f32 (f32 ((tickRestart - w.timer_ : Int) : ℚ) / 1000)
    let w := { w with timer_ := tickRestart }
    let w :=
      { w with fps := (stdRound (f32 (f32 (w.frameCount_ : ℚ) / elapsedSeconds))).toNat }
    let w := { w with frameCount_ := 0 }
    w.emit .updateUI
  else w

/-- The member function `Window::onRender`.  The result is `none` when `program_` is null
(the call `program_->bind()` dereferences it).  `tickElapsed` and `tickRestart` are the two
monotonic clock readings taken when the metrics guard goes out of scope. -/
def onRender (w : Window) (msecsSinceEpoch tickElapsed tickRestart : Int) : Option Window :=
  match w.program_ with
  | none => none
  | some _ =>
    let w := w.emit .glClear
    let w := w.emit .programBind
    let w := w.emit .vaoBind
    let w := updateUniform w msecsSinceEpoch
    let w := w.emit (.glDrawElements indices.length)
    let w := w.emit .vaoRelease
    let w := w.emit .programRelease
    let w := { w with frameCount_ := (w.frameCount_ + 1) % 2 ^ 64 }
    let w := if w.animated_ then w.emit .update else w
    some (captureMetrics w tickElapsed tickRestart)

/-- The conversion `static_cast<GLint>` of a `size_t`. -/
def toGLint (n : Nat) : Int :=
  if n % 2 ^ 32 < 2 ^ 31 then ((n % 2 ^ 32 : Nat) : Int) else ((n % 2 ^ 32 : Nat) : Int) - 2 ^ 32

/-- The member function `Window::onResize`; the stored dimensions are the `GLfloat`
conversions of `width` and `height`. -/
def onResize (w : Window) (width height : Nat) (msecsSinceEpoch : Int) : Window :=
  let w := w.emit (.glViewport 0 0 (toGLint width) (toGLint height))
  let w := { w with info := { w.info with resolution := ⟨f32 width, f32 height⟩ } }
  if w.program_ = some true then
    let w := w.emit .bindContext
    let w := w.emit .programBind
    let w := updateUniform w msecsSinceEpoch
    w.emit .programRelease
  else w

/-- The slot `Window::onSliderChanged`; `sliderValue` is `iterationsSlider_->value()`. -/
def onSliderChanged (w : Window) (sliderValue : Int) : Window :=
  let w := { w with info := { w.info with maxIterations := sliderValue } }
  let w := w.emit (.setIterationsLabel w.info.maxIterations)
  w.emit .update

/-! ## Interaction -/

/-- The handler `Window::mousePressEvent`. -/
def mousePressEvent (w : Window) (event : QMouseEvent) : Window :=
  if event.button = Qt.LeftButton then
    { w with lastMousePos_ := event.pos, isPanning_ := true }
  else w

/-- The handler `Window::mouseReleaseEvent`. -/
def mouseReleaseEvent (w : Window) (event : QMouseEvent) : Window :=
  if event.button = Qt.LeftButton then
    { w with isPanning_ := false }
  else w

/-- The handler `Window::mouseMoveEvent`. -/
def mouseMoveEvent (w : Window) (event : QMouseEvent) : Window :=
  if w.isPanning_ = true ∧ event.buttons &&& Qt.LeftButton ≠ 0 then
    let delta : QPointF := (event.pos - w.lastMousePos_).toPointF
    let delta : QPointF := { delta with y := -delta.y }
    let w := { w with lastMousePos_ := event.pos }
    let normalized : QPointF := (2 : ℚ) * delta / (w.info.resolution.y * w.info.zoom)
    let w := { w with info := { w.info with offset := w.info.offset - normalized } }
    w.emit .update
  else w

/-- Lines 287-293 of `Window::wheelEvent`: the cursor in aspect-corrected normalized device
coordinates. -/
def ndc (info : Info) (mousePos : QPointF) : QPointF :=
  let ndcX : ℚ := (2 * mousePos.x / info.resolution.x) - 1
  let ndcY : ℚ := 1 - (2 * mousePos.y / info.resolution.y)
  let aspectRatio : ℚ := info.resolution.x / info.resolution.y
  let ndcX : ℚ := ndcX * aspectRatio
  ⟨ndcX, ndcY⟩

/-- Line 296 of `Window::wheelEvent`: the fractal-space point under the cursor. -/
def currentCursorPos (info : Info) (mousePos : QPointF) : QPointF :=
  info.offset + ndc info mousePos / info.zoom

/-- The handler `Window::wheelEvent`. -/
def wheelEvent (w : Window) (event : QWheelEvent) : Window :=
  let mousePos : QPointF := event.position
  let ndc : QPointF := ndc w.info mousePos
  let currentCursorPos : QPointF := currentCursorPos w.info mousePos
  let zoomFactor : ℚ := 1.25
  let zoomDelta : QPointF := event.angleDelta.toPointF
  let w :=
    if zoomDelta.y > 0 then { w with info := { w.info with zoom := w.info.zoom * zoomFactor } }
    else if zoomDelta.y < 0 then
      { w with info := { w.info with zoom := w.info.zoom / zoomFactor } }
    else w
  let newCursorPos : QPointF := w.info.offset + ndc / w.info.zoom
  let delta : QPointF := currentCursorPos - newCursorPos
  let w := { w with info := { w.info with offset := w.info.offset + delta } }
  w.emit .update

/-! ## Event sequences -/

/-- The events the host delivers to the interaction handlers. -/
inductive Event where
  | mousePress (event : QMouseEvent)
  | mouseMove (event : QMouseEvent)
  | mouseRelease (event : QMouseEvent)
  | wheel (event : QWheelEvent)
  | resize (width height : Nat) (msecsSinceEpoch : Int)
  | sliderChanged (sliderValue : Int)
deriving DecidableEq

/-- Dispatch of one event to its handler. -/
def step (w : Window) : Event → Window
  | .mousePress event => mousePressEvent w event
  | .mouseMove event => mouseMoveEvent w event
  | .mouseRelease event => mouseReleaseEvent w event
  | .wheel event => wheelEvent w event
  | .resize width height msecsSinceEpoch => onResize w width height msecsSinceEpoch
  | .sliderChanged sliderValue => onSliderChanged w sliderValue

/-- Dispatch of a sequence of events, first to last. -/
def run (w : Window) (events : List Event) : Window :=
  events.foldl step w

/-- A resize event is well formed when both of its dimensions are positive; every other
event is well formed. -/
def Event.WellFormed : Event → Prop
  | .resize width height _ => 0 < width ∧ 0 < height
  | _ => True

instance (e : Event) : Decidable e.WellFormed := by
  cases e <;> unfold Event.WellFormed <;> infer_instance

/-! ## The coordinate mapper as the specification words it -/

/-- The mapping named `pixelToFractal` in the specification:
`o + ((2*p.x/w - 1)*(w/h), 1 - 2*p.y/h) / z`. -/
def pixelToFractal (p resolution offset : QPointF) (zoom : ℚ) : QPointF :=
  offset +
    (⟨(2 * p.x / resolution.x - 1) * (resolution.x / resolution.y),
      1 - 2 * p.y / resolution.y⟩ : QPointF) / zoom

/-! ## The uniform table as the specification words it -/

/-- The uniform table of the specification: each of the five slots with the value it
receives, in the order resolution, offset, zoom, time, maxIterations.  The time value is the
remainder of `t` by `2 * 31415`, truncating toward zero as the program computes it. -/
def uniformTable (w : Window) (t : Int) : List (Int × UniformValue) :=
  [ (w.resolutionUniform_, .vec2 w.info.resolution),
    (w.offsetUniform_, .vec2 w.info.offset),
    (w.zoomUniform_, .float w.info.zoom),
    (w.timeUniform_, .float ((Int.tmod t 62830 : Int) : ℚ)),
    (w.maxIterationsUniform_, .int w.info.maxIterations) ]

/-- The writes the specification prescribes: one per slot of the table whose location is
not the sentinel `-1`, in table order. -/
def expectedWrites (w : Window) (t : Int) : List Effect :=
  ((uniformTable w t).filter (fun slot => slot.1 ≠ -1)).map
    (fun slot => Effect.setUniformValue slot.1 slot.2)

/-! ## Sample states and event sequences -/

/-- A linked window whose program declares only the `time` uniform, at location 3. -/
def timeOnlyWindow : Window :=
  { Window.new 0 with program_ := some true, timeUniform_ := 3 }

/-- The freshly constructed window after its program was created but failed to link. -/
def unlinkedWindow : Window :=
  { Window.new 0 with program_ := some false }

/-- A press, a drag, three wheel notches in, one out, a resize, a slider move, a release. -/
def sampleSession : List Event :=
  [ .mousePress ⟨1, 1, ⟨10, 10⟩⟩, .mouseMove ⟨0, 1, ⟨25, 4⟩⟩,
    .wheel ⟨⟨100, 50⟩, ⟨0, 120⟩⟩, .wheel ⟨⟨100, 50⟩, ⟨0, 120⟩⟩, .wheel ⟨⟨3, 7⟩, ⟨0, 120⟩⟩,
    .wheel ⟨⟨640, 480⟩, ⟨0, -120⟩⟩, .resize 800 400 12345, .sliderChanged 250,
    .mouseRelease ⟨1, 0, ⟨25, 4⟩⟩ ]

/-! ## Basic facts about the value types -/

theorem pointF_add_def (a b : QPointF) : a + b = ⟨a.x + b.x, a.y + b.y⟩ := rfl

theorem pointF_sub_def (a b : QPointF) : a - b = ⟨a.x - b.x, a.y - b.y⟩ := rfl

theorem pointF_smul_def (c : ℚ) (p : QPointF) : c * p = ⟨p.x * c, p.y * c⟩ := rfl

theorem pointF_div_def (p : QPointF) (c : ℚ) : p / c = ⟨p.x / c, p.y / c⟩ := rfl

theorem point_sub_def (a b : QPoint) : a - b = ⟨a.x - b.x, a.y - b.y⟩ := rfl

theorem pointF_add_sub_self (o c : QPointF) : o + (c - c) = o := by
  cases o
  simp [pointF_add_def, pointF_sub_def]

theorem emit_info (w : Window) (e : Effect) : (w.emit e).info = w.info := rfl

/-! ## Single precision rounding -/

theorem roundTiesEven_intCast (z : Int) : roundTiesEven (z : ℚ) = z := by
  unfold roundTiesEven
  simp

theorem floor_le_roundTiesEven (m : ℚ) : ⌊m⌋ ≤ roundTiesEven m := by
  unfold roundTiesEven
  split_ifs <;> omega

theorem roundTiesEven_error (m : ℚ) : |(roundTiesEven m : ℚ) - m| ≤ 1 / 2 := by
  have h0 : (⌊m⌋ : ℚ) ≤ m := Int.floor_le m
  have h1 : m < ⌊m⌋ + 1 := Int.lt_floor_add_one m
  unfold roundTiesEven
  rw [abs_le]
  split_ifs with ha hb hc <;> push_cast <;> constructor <;> linarith

theorem f32_zero : f32 0 = 0 := by
  unfold f32
  rw [if_pos rfl]

theorem f32_of_bounds (x : ℚ) (k : Int) (hk : -126 ≤ k) (hlo : (2 : ℚ) ^ k ≤ |x|)
    (hhi : |x| < (2 : ℚ) ^ (k + 1)) :
    f32 x = (roundTiesEven (x / (2 : ℚ) ^ (k - 23)) : ℚ) * (2 : ℚ) ^ (k - 23) := by
  have hpos : (0 : ℚ) < |x| := lt_of_lt_of_le (by positivity) hlo
  have hx : x ≠ 0 := abs_pos.mp hpos
  have hlog : Int.log 2 |x| = k := by
    apply le_antisymm
    · have := (Int.lt_zpow_iff_log_lt (R := ℚ) (b := 2) (by norm_num) hpos (x := k + 1)).mp
        (by exact_mod_cast hhi)
      omega
    · exact (Int.zpow_le_iff_le_log (R := ℚ) (b := 2) (by norm_num) hpos).mp (by exact_mod_cast hlo)
  unfold f32
  rw [if_neg hx]
  simp only [hlog, max_eq_left hk]

/-- Every positive value of at least the least normal magnitude has a binary exponent. -/
theorem exists_exponent (x : ℚ) (hx : (2 : ℚ) ^ (-126 : Int) ≤ x) :
    ∃ k : Int, -126 ≤ k ∧ (2 : ℚ) ^ k ≤ x ∧ x < (2 : ℚ) ^ (k + 1) := by
  have hpos : (0 : ℚ) < x := lt_of_lt_of_le (by positivity) hx
  refine ⟨Int.log 2 x, ?_, ?_, ?_⟩
  · exact (Int.zpow_le_iff_le_log (R := ℚ) (b := 2) (by norm_num) hpos).mp (by exact_mod_cast hx)
  · exact_mod_cast Int.zpow_log_le_self (R := ℚ) (b := 2) (by norm_num) hpos
  · exact_mod_cast Int.lt_zpow_succ_log_self (R := ℚ) (b := 2) (by norm_num) x

theorem zpow_split (k : Int) : (2 : ℚ) ^ k = (2 : ℚ) ^ (23 : Int) * (2 : ℚ) ^ (k - 23) := by
  rw [← zpow_add₀ (by norm_num : (2 : ℚ) ≠ 0)]
  congr 1
  omega

theorem f32_ge_pow (x : ℚ) (k : Int) (hk : -126 ≤ k) (hx : (2 : ℚ) ^ k ≤ x) :
    (2 : ℚ) ^ k ≤ f32 x := by
  have hkpos : (0 : ℚ) < (2 : ℚ) ^ k := by positivity
  have hpos : (0 : ℚ) < x := lt_of_lt_of_le hkpos hx
  have hmin : (2 : ℚ) ^ (-126 : Int) ≤ x :=
    le_trans (zpow_le_zpow_right₀ (by norm_num) hk) hx
  obtain ⟨K, hK, hlo, hhi⟩ := exists_exponent x hmin
  have hkK : k ≤ K := by
    by_contra hcon
    have h1 : K + 1 ≤ k := by omega
    have h2 : (2 : ℚ) ^ (K + 1) ≤ (2 : ℚ) ^ k := zpow_le_zpow_right₀ (by norm_num) h1
    linarith
  rw [f32_of_bounds x K hK (by rwa [abs_of_pos hpos]) (by rwa [abs_of_pos hpos])]
  have hulp : (0 : ℚ) < (2 : ℚ) ^ (K - 23) := by positivity
  have hm : ((2 ^ 23 : Int) : ℚ) ≤ x / (2 : ℚ) ^ (K - 23) := by
    rw [le_div_iff₀ hulp]
    have := zpow_split K
    push_cast
    calc (2 : ℚ) ^ 23 * (2 : ℚ) ^ (K - 23) = (2 : ℚ) ^ K := by rw [this]; norm_num
      _ ≤ x := hlo
  have hfl : (2 ^ 23 : Int) ≤ roundTiesEven (x / (2 : ℚ) ^ (K - 23)) :=
    le_trans (Int.le_floor.mpr hm) (floor_le_roundTiesEven _)
  have hfl' : ((2 : ℚ) ^ 23) ≤ (roundTiesEven (x / (2 : ℚ) ^ (K - 23)) : ℚ) := by
    exact_mod_cast hfl
  calc (2 : ℚ) ^ k ≤ (2 : ℚ) ^ K := zpow_le_zpow_right₀ (by norm_num) hkK
    _ = (2 : ℚ) ^ 23 * (2 : ℚ) ^ (K - 23) := by rw [zpow_split K]; norm_num
    _ ≤ _ := mul_le_mul_of_nonneg_right hfl' hulp.le

theorem f32_rel_error (x : ℚ) (hx : (2 : ℚ) ^ (-126 : Int) ≤ x) :
    |f32 x - x| ≤ x * (2 : ℚ) ^ (-24 : Int) := by
  have hpos : (0 : ℚ) < x := lt_of_lt_of_le (by positivity) hx
  obtain ⟨K, hK, hlo, hhi⟩ := exists_exponent x hx
  rw [f32_of_bounds x K hK (by rwa [abs_of_pos hpos]) (by rwa [abs_of_pos hpos])]
  have hulp : (0 : ℚ) < (2 : ℚ) ^ (K - 23) := by positivity
  have herr := roundTiesEven_error (x / (2 : ℚ) ^ (K - 23))
  have heq : (roundTiesEven (x / (2 : ℚ) ^ (K - 23)) : ℚ) * (2 : ℚ) ^ (K - 23) - x =
      ((roundTiesEven (x / (2 : ℚ) ^ (K - 23)) : ℚ) - x / (2 : ℚ) ^ (K - 23)) *
        (2 : ℚ) ^ (K - 23) := by
    field_simp
  rw [heq, abs_mul, abs_of_pos hulp]
  have h24 : (2 : ℚ) ^ (K - 23) * (1 / 2) = (2 : ℚ) ^ K * (2 : ℚ) ^ (-24 : Int) := by
    rw [zpow_split K]
    norm_num
    ring
  calc _ ≤ 1 / 2 * (2 : ℚ) ^ (K - 23) := mul_le_mul_of_nonneg_right herr hulp.le
    _ = (2 : ℚ) ^ K * (2 : ℚ) ^ (-24 : Int) := by rw [← h24]; ring
    _ ≤ x * (2 : ℚ) ^ (-24 : Int) := mul_le_mul_of_nonneg_right hlo (by positivity)

theorem f32_natCast_exact (n : Nat) (hn : n ≤ 2 ^ 24) : f32 (n : ℚ) = n := by
  rcases Nat.eq_zero_or_pos n with h0 | hpos
  · subst h0
    simpa using f32_zero
  have hx1 : (1 : ℚ) ≤ (n : ℚ) := by exact_mod_cast hpos
  have hmin : (2 : ℚ) ^ (-126 : Int) ≤ (n : ℚ) := le_trans (by norm_num) hx1
  obtain ⟨K, hK, hlo, hhi⟩ := exists_exponent (n : ℚ) hmin
  have hxpos : (0 : ℚ) < (n : ℚ) := by linarith
  rw [f32_of_bounds (n : ℚ) K hK (by rwa [abs_of_pos hxpos]) (by rwa [abs_of_pos hxpos])]
  have hulp : (0 : ℚ) < (2 : ℚ) ^ (K - 23) := by positivity
  have hK24 : K ≤ 24 := by
    by_contra hcon
    have h1 : (25 : Int) ≤ K := by omega
    have h2 : (2 : ℚ) ^ (25 : Int) ≤ (2 : ℚ) ^ K := zpow_le_zpow_right₀ (by norm_num) h1
    have h3 : (n : ℚ) ≤ 2 ^ 24 := by exact_mod_cast hn
    have h4 : (2 : ℚ) ^ (25 : Int) ≤ (n : ℚ) := le_trans h2 hlo
    norm_num at h4
    linarith
  have hint : ∃ z : Int, (n : ℚ) / (2 : ℚ) ^ (K - 23) = (z : ℚ) := by
    rcases (by omega : K ≤ 23 ∨ K = 24) with hle | h24
    · obtain ⟨j, hj⟩ : ∃ j : Nat, (j : Int) = 23 - K := ⟨(23 - K).toNat, by omega⟩
      refine ⟨(n : Int) * 2 ^ j, ?_⟩
      have : K - 23 = -(j : Int) := by omega
      rw [this, zpow_neg, zpow_natCast]
      push_cast
      field_simp
    · subst h24
      have h3 : (n : ℚ) ≤ 2 ^ 24 := by exact_mod_cast hn
      have h5 : (2 : ℚ) ^ (24 : Int) = 2 ^ 24 := by norm_num
      have h4 : (n : ℚ) = 2 ^ 24 := le_antisymm h3 (by rw [← h5]; exact hlo)
      refine ⟨2 ^ 23, ?_⟩
      rw [h4]
      norm_num
  obtain ⟨z, hz⟩ := hint
  rw [hz, roundTiesEven_intCast, ← hz]
  field_simp

theorem f32_nonneg (x : ℚ) (hx : 0 ≤ x) : 0 ≤ f32 x := by
  unfold f32
  split_ifs with h0
  · exact le_refl 0
  · have hulp : (0 : ℚ) < (2 : ℚ) ^ (max (Int.log 2 |x|) (-126) - 23) := by positivity
    have hfl : (0 : Int) ≤ roundTiesEven (x / (2 : ℚ) ^ (max (Int.log 2 |x|) (-126) - 23)) :=
      le_trans (Int.floor_nonneg.mpr (div_nonneg hx hulp.le)) (floor_le_roundTiesEven _)
    have hfl' : (0 : ℚ) ≤
        (roundTiesEven (x / (2 : ℚ) ^ (max (Int.log 2 |x|) (-126) - 23)) : ℚ) := by
      exact_mod_cast hfl
    exact mul_nonneg hfl' hulp.le

theorem f32_between (x : ℚ) (hx : (2 : ℚ) ^ (-126 : Int) ≤ x) :
    (1 - (2 : ℚ) ^ (-24 : Int)) * x ≤ f32 x ∧ f32 x ≤ (1 + (2 : ℚ) ^ (-24 : Int)) * x := by
  have h := abs_le.mp (f32_rel_error x hx)
  constructor <;> linarith [h.1, h.2]

theorem stdRound_error (x : ℚ) (hx : 0 ≤ x) : |(stdRound x : ℚ) - x| ≤ 1 / 2 := by
  unfold stdRound
  rw [if_pos hx, abs_le]
  have h0 := Int.floor_le (x + 1 / 2)
  have h1 := Int.lt_floor_add_one (x + 1 / 2)
  constructor <;> linarith

theorem quot_upper {a s n E x A C : ℚ} (ha : a ≤ A * n) (hs : C * E ≤ s) (hC : 0 < C)
    (hE : 0 < E) (hA : 0 ≤ A) (hx : 0 ≤ x) (hxE : x * E = n) : a / s ≤ A / C * x := by
  have hspos : 0 < s := lt_of_lt_of_le (mul_pos hC hE) hs
  rw [div_le_iff₀ hspos]
  have h1 : A / C * x * (C * E) = A * n := by
    rw [← hxE]
    field_simp
    ring
  calc a ≤ A * n := ha
    _ = A / C * x * (C * E) := h1.symm
    _ ≤ A / C * x * s := mul_le_mul_of_nonneg_left hs (mul_nonneg (div_nonneg hA hC.le) hx)

theorem quot_lower {a s n E x A C : ℚ} (ha : A * n ≤ a) (hs : s ≤ C * E) (hspos : 0 < s)
    (hC : 0 < C) (hA : 0 ≤ A) (hx : 0 ≤ x) (hxE : x * E = n) : A / C * x ≤ a / s := by
  rw [le_div_iff₀ hspos]
  have h1 : A / C * x * (C * E) = A * n := by
    rw [← hxE]
    field_simp
    ring
  calc A / C * x * s ≤ A / C * x * (C * E) :=
        mul_le_mul_of_nonneg_left hs (mul_nonneg (div_nonneg hA hC.le) hx)
    _ = A * n := h1
    _ ≤ a := ha

theorem rate_error (n : Nat) (e : Int) (hn : n ≤ 2 ^ 20) (he : 1000 ≤ e) (he2 : e < 2 ^ 63) :
    |f32 (f32 (n : ℚ) / f32 (f32 (e : ℚ) / 1000)) - (n : ℚ) / ((e : ℚ) / 1000)| ≤ 5 / 16 := by
  have hu : (2 : ℚ) ^ (-24 : Int) = 1 / 16777216 := by norm_num
  have heq : (1000 : ℚ) ≤ (e : ℚ) := by exact_mod_cast he
  have heq2 : (e : ℚ) < 2 ^ 63 := by exact_mod_cast he2
  have hmin : (2 : ℚ) ^ (-126 : Int) ≤ 1 / 2 ^ 60 := by
    rw [zpow_neg, ← one_div]
    apply one_div_le_one_div_of_le (by positivity)
    norm_num
  have hsmall : (1 : ℚ) / 2 ^ 60 ≤ 1 / 2 := by norm_num
  -- the divisor
  have hb := f32_between (e : ℚ) (le_trans hmin (by linarith))
  rw [hu] at hb
  have hbpos : (999 : ℚ) ≤ f32 (e : ℚ) := by linarith [hb.1]
  have hs := f32_between (f32 (e : ℚ) / 1000) (le_trans hmin (by
    rw [le_div_iff₀ (by norm_num)]; linarith))
  rw [hu] at hs
  have hslo : (1 - 1 / 16777216) ^ 2 * ((e : ℚ) / 1000) ≤ f32 (f32 (e : ℚ) / 1000) := by
    nlinarith [hs.1, hb.1]
  have hshi : f32 (f32 (e : ℚ) / 1000) ≤ (1 + 1 / 16777216) ^ 2 * ((e : ℚ) / 1000) := by
    nlinarith [hs.2, hb.2]
  have hepos : (0 : ℚ) < (e : ℚ) / 1000 := by positivity
  have he1 : (1 : ℚ) ≤ (e : ℚ) / 1000 := by rw [le_div_iff₀ (by norm_num)]; linarith
  have hspos : (0 : ℚ) < f32 (f32 (e : ℚ) / 1000) := lt_of_lt_of_le (by positivity) hslo
  rcases Nat.eq_zero_or_pos n with h0 | hnpos
  · subst h0
    simp [f32_zero]
    norm_num
  have hn1 : (1 : ℚ) ≤ (n : ℚ) := by exact_mod_cast hnpos
  have hn20 : (n : ℚ) ≤ 2 ^ 20 := by exact_mod_cast hn
  have ha := f32_between (n : ℚ) (le_trans hmin (by linarith))
  rw [hu] at ha
  have hahalf : (1 / 2 : ℚ) ≤ f32 (n : ℚ) := by nlinarith [ha.1]
  have hapos : (0 : ℚ) < f32 (n : ℚ) := by linarith
  -- the exact rate
  obtain ⟨x, hxdef⟩ : ∃ x : ℚ, x = (n : ℚ) / ((e : ℚ) / 1000) := ⟨_, rfl⟩
  rw [← hxdef]
  have hxE : x * ((e : ℚ) / 1000) = n := by rw [hxdef]; exact div_mul_cancel₀ _ hepos.ne'
  have hxpos : 0 < x := by rw [hxdef]; exact div_pos (by linarith) hepos
  have hxle : x ≤ 2 ^ 20 := by nlinarith
  -- the quotient before its rounding
  have hq0min : (2 : ℚ) ^ (-126 : Int) ≤ f32 (n : ℚ) / f32 (f32 (e : ℚ) / 1000) := by
    refine le_trans hmin ?_
    rw [le_div_iff₀ hspos]
    have h1 : f32 (f32 (e : ℚ) / 1000) ≤ 2 ^ 59 := by
      have h2 : (e : ℚ) / 1000 ≤ 2 ^ 63 / 1000 :=
        div_le_div_of_nonneg_right heq2.le (by norm_num)
      have h3 : (1 + 1 / 16777216 : ℚ) ^ 2 * ((e : ℚ) / 1000) ≤
          (1 + 1 / 16777216 : ℚ) ^ 2 * (2 ^ 63 / 1000) :=
        mul_le_mul_of_nonneg_left h2 (by positivity)
      have h4 : (1 + 1 / 16777216 : ℚ) ^ 2 * (2 ^ 63 / 1000) ≤ 2 ^ 59 := by norm_num
      linarith
    calc (1 : ℚ) / 2 ^ 60 * f32 (f32 (e : ℚ) / 1000) ≤ 1 / 2 ^ 60 * 2 ^ 59 :=
          mul_le_mul_of_nonneg_left h1 (by positivity)
      _ = 1 / 2 := by norm_num
      _ ≤ _ := hahalf
  have hq := f32_between _ hq0min
  rw [hu] at hq
  have hq0hi : f32 (n : ℚ) / f32 (f32 (e : ℚ) / 1000) ≤
      (1 + 1 / 16777216) / (1 - 1 / 16777216) ^ 2 * x :=
    quot_upper ha.2 hslo (by norm_num) hepos (by norm_num) hxpos.le hxE
  have hq0lo : (1 - 1 / 16777216) / (1 + 1 / 16777216) ^ 2 * x ≤
      f32 (n : ℚ) / f32 (f32 (e : ℚ) / 1000) :=
    quot_lower ha.1 hshi hspos (by norm_num) (by norm_num) hxpos.le hxE
  have hclo : (1 - 5 / 16777216 : ℚ) ≤
      (1 - 1 / 16777216) * ((1 - 1 / 16777216) / (1 + 1 / 16777216) ^ 2) := by norm_num
  have hchi : (1 + 1 / 16777216 : ℚ) * ((1 + 1 / 16777216) / (1 - 1 / 16777216) ^ 2) ≤
      (1 + 5 / 16777216) := by norm_num
  have hlo : (1 - 5 / 16777216 : ℚ) * x ≤ f32 (f32 (n : ℚ) / f32 (f32 (e : ℚ) / 1000)) :=
    calc (1 - 5 / 16777216 : ℚ) * x
        ≤ (1 - 1 / 16777216) * ((1 - 1 / 16777216) / (1 + 1 / 16777216) ^ 2) * x :=
          mul_le_mul_of_nonneg_right hclo hxpos.le
      _ = (1 - 1 / 16777216) * ((1 - 1 / 16777216) / (1 + 1 / 16777216) ^ 2 * x) := by ring
      _ ≤ (1 - 1 / 16777216) * (f32 (n : ℚ) / f32 (f32 (e : ℚ) / 1000)) :=
          mul_le_mul_of_nonneg_left hq0lo (by norm_num)
      _ ≤ _ := hq.1
  have hhi : f32 (f32 (n : ℚ) / f32 (f32 (e : ℚ) / 1000)) ≤ (1 + 5 / 16777216 : ℚ) * x :=
    calc f32 (f32 (n : ℚ) / f32 (f32 (e : ℚ) / 1000))
        ≤ (1 + 1 / 16777216) * (f32 (n : ℚ) / f32 (f32 (e : ℚ) / 1000)) := hq.2
      _ ≤ (1 + 1 / 16777216) * ((1 + 1 / 16777216) / (1 - 1 / 16777216) ^ 2 * x) :=
          mul_le_mul_of_nonneg_left hq0hi (by norm_num)
      _ = (1 + 1 / 16777216) * ((1 + 1 / 16777216) / (1 - 1 / 16777216) ^ 2) * x := by ring
      _ ≤ _ := mul_le_mul_of_nonneg_right hchi hxpos.le
  rw [abs_le]
  constructor <;> linarith

theorem f32_natCast_ge_one_iff (n : Nat) : 1 ≤ f32 (n : ℚ) ↔ 1 ≤ n := by
  constructor
  · intro h
    rcases Nat.eq_zero_or_pos n with h0 | hpos
    · subst h0
      rw [Nat.cast_zero, f32_zero] at h
      exact absurd h (by norm_num)
    · exact hpos
  · intro h
    have hx : (2 : ℚ) ^ (0 : Int) ≤ (n : ℚ) := by
      rw [zpow_zero]
      exact_mod_cast h
    have := f32_ge_pow (n : ℚ) 0 (by norm_num) hx
    rwa [zpow_zero] at this

/-- The conversion to `float` of an odd integer just above `2 ^ 24` loses its last bit. -/
theorem f32_above_two_pow_24 : f32 16777217 = 16777216 := by
  rw [f32_of_bounds _ 24 (by norm_num) (by norm_num [abs_of_pos]) (by norm_num [abs_of_pos])]
  norm_num [roundTiesEven]

/-! ## Zoom to cursor -/

/-- C1 (zoom-to-cursor): for positive resolution and zoom, after any wheel event the
specification mapping `pixelToFractal`, taken at the cursor position of the event with the
resolution, offset and zoom left by `wheelEvent`, gives the same fractal point as with the
state before the event. -/
theorem wheelEvent_fixes_cursor_point (w : Window) (event : QWheelEvent)
    (_hw : 0 < w.info.resolution.x) (_hh : 0 < w.info.resolution.y) (_hz : 0 < w.info.zoom) :
    pixelToFractal event.position (wheelEvent w event).info.resolution
        (wheelEvent w event).info.offset (wheelEvent w event).info.zoom
      = pixelToFractal event.position w.info.resolution w.info.offset w.info.zoom := by
  unfold wheelEvent
  simp only [emit_info, currentCursorPos, ndc, pixelToFractal, pointF_add_def,
    pointF_sub_def, pointF_div_def]
  split_ifs <;> simp only [QPointF.mk.injEq] <;> constructor <;> ring

theorem wheelEvent_fixes_cursor_point_witness :
    (0 : ℚ) < (Window.new 0).info.resolution.x ∧
    pixelToFractal (⟨⟨100, 50⟩, ⟨0, 120⟩⟩ : QWheelEvent).position
        (wheelEvent (Window.new 0) ⟨⟨100, 50⟩, ⟨0, 120⟩⟩).info.resolution
        (wheelEvent (Window.new 0) ⟨⟨100, 50⟩, ⟨0, 120⟩⟩).info.offset
        (wheelEvent (Window.new 0) ⟨⟨100, 50⟩, ⟨0, 120⟩⟩).info.zoom
      = pixelToFractal (⟨⟨100, 50⟩, ⟨0, 120⟩⟩ : QWheelEvent).position
        (Window.new 0).info.resolution (Window.new 0).info.offset (Window.new 0).info.zoom :=
  ⟨by norm_num [Window.new],
   wheelEvent_fixes_cursor_point (Window.new 0) ⟨⟨100, 50⟩, ⟨0, 120⟩⟩
    (by norm_num [Window.new]) (by norm_num [Window.new]) (by norm_num [Window.new])⟩

/-! ## Zoom step -/

/-- C7 (zoom step rule): for positive resolution and zoom, `wheelEvent` multiplies the zoom
by 1.25 when the vertical scroll delta is positive, divides it by 1.25 when it is negative,
and leaves zoom and offset as they were when it is zero; the horizontal scroll component
does not influence the resulting state; resolution and maxIterations never change. -/
theorem wheelEvent_zoom_step (w : Window) (event : QWheelEvent)
    (_hw : 0 < w.info.resolution.x) (_hh : 0 < w.info.resolution.y) (_hz : 0 < w.info.zoom) :
    (0 < event.angleDelta.y → (wheelEvent w event).info.zoom = w.info.zoom * 1.25) ∧
    (event.angleDelta.y < 0 → (wheelEvent w event).info.zoom = w.info.zoom / 1.25) ∧
    (event.angleDelta.y = 0 →
      (wheelEvent w event).info.zoom = w.info.zoom ∧
      (wheelEvent w event).info.offset = w.info.offset) ∧
    (∀ dx : Int,
      wheelEvent w { event with angleDelta := ⟨dx, event.angleDelta.y⟩ } = wheelEvent w event) ∧
    (wheelEvent w event).info.resolution = w.info.resolution ∧
    (wheelEvent w event).info.maxIterations = w.info.maxIterations := by
  have hpos : (0 < ((event.angleDelta.y : Int) : ℚ)) ↔ 0 < event.angleDelta.y := Int.cast_pos
  have hneg : (((event.angleDelta.y : Int) : ℚ) < 0) ↔ event.angleDelta.y < 0 :=
    Int.cast_lt_zero
  refine ⟨?_, ?_, ?_, ?_, ?_, ?_⟩
  · intro h
    simp [wheelEvent, QPoint.toPointF, emit_info, hpos, h]
  · intro h
    have h2 : ¬ 0 < event.angleDelta.y := by omega
    simp [wheelEvent, QPoint.toPointF, emit_info, hpos, hneg, h, h2]
  · intro h
    simp only [wheelEvent, QPoint.toPointF, emit_info, h, Int.cast_zero, lt_irrefl,
      gt_iff_lt, if_false, true_and]
    exact pointF_add_sub_self _ _
  · intro dx
    simp [wheelEvent, QPoint.toPointF]
  · unfold wheelEvent
    simp only [emit_info]
    split_ifs <;> rfl
  · unfold wheelEvent
    simp only [emit_info]
    split_ifs <;> rfl

theorem wheelEvent_zoom_step_witness :
    (wheelEvent (Window.new 0) ⟨⟨100, 50⟩, ⟨0, 120⟩⟩).info.zoom = (5 / 4 : ℚ) ∧
    (wheelEvent (Window.new 0) ⟨⟨100, 50⟩, ⟨7, 0⟩⟩).info.offset = ⟨0, 0⟩ := by
  have h1 := (wheelEvent_zoom_step (Window.new 0) ⟨⟨100, 50⟩, ⟨0, 120⟩⟩
    (by norm_num [Window.new]) (by norm_num [Window.new]) (by norm_num [Window.new])).1
    (by decide)
  have h2 := ((wheelEvent_zoom_step (Window.new 0) ⟨⟨100, 50⟩, ⟨7, 0⟩⟩
    (by norm_num [Window.new]) (by norm_num [Window.new]) (by norm_num [Window.new])).2.2.1
    rfl).2
  constructor
  · rw [h1]; norm_num [Window.new]
  · rw [h2]; rfl

/-! ## Panning -/

/-- C8 (pan transition): for positive resolution height and zoom, a pointer move to `q`
while Panning with the primary button held subtracts from the offset the pixel delta from
the last recorded position, vertical axis inverted, scaled by 2 and divided by
`height * zoom`, and records `q` as the last position; a pointer move while Idle, or
without the primary button held, changes nothing at all.  Zoom, resolution and
maxIterations are unchanged in both cases. -/
theorem mouseMoveEvent_pan (w : Window) (event : QMouseEvent)
    (_hh : 0 < w.info.resolution.y) (_hz : 0 < w.info.zoom) :
    (w.isPanning_ = true ∧ event.buttons &&& Qt.LeftButton ≠ 0 →
      (mouseMoveEvent w event).info.offset =
        w.info.offset -
          (⟨2 * ((event.pos.x - w.lastMousePos_.x : Int) : ℚ),
            -2 * ((event.pos.y - w.lastMousePos_.y : Int) : ℚ)⟩ : QPointF) /
            (w.info.resolution.y * w.info.zoom) ∧
      (mouseMoveEvent w event).lastMousePos_ = event.pos) ∧
    (¬ (w.isPanning_ = true ∧ event.buttons &&& Qt.LeftButton ≠ 0) →
      (mouseMoveEvent w event).info.offset = w.info.offset ∧
      (mouseMoveEvent w event).info.zoom = w.info.zoom ∧
      (mouseMoveEvent w event).lastMousePos_ = w.lastMousePos_ ∧
      mouseMoveEvent w event = w) ∧
    (mouseMoveEvent w event).info.zoom = w.info.zoom ∧
    (mouseMoveEvent w event).info.resolution = w.info.resolution ∧
    (mouseMoveEvent w event).info.maxIterations = w.info.maxIterations := by
  refine ⟨?_, ?_, ?_, ?_, ?_⟩
  · intro h
    unfold mouseMoveEvent
    rw [if_pos h]
    refine ⟨?_, rfl⟩
    simp only [emit_info, QPoint.toPointF, point_sub_def, pointF_sub_def,
      pointF_div_def, pointF_smul_def, QPointF.mk.injEq]
    constructor <;> ring
  · intro h
    unfold mouseMoveEvent
    rw [if_neg h]
    exact ⟨rfl, rfl, rfl, rfl⟩
  all_goals
    unfold mouseMoveEvent
    split_ifs <;> rfl

theorem mouseMoveEvent_pan_witness :
    (mouseMoveEvent { Window.new 0 with isPanning_ := true } ⟨0, 1, ⟨240, -480⟩⟩).info.offset
      = ⟨-1, -2⟩ := by
  have h := ((mouseMoveEvent_pan { Window.new 0 with isPanning_ := true } ⟨0, 1, ⟨240, -480⟩⟩
    (by norm_num [Window.new]) (by norm_num [Window.new])).1 ⟨rfl, by decide⟩).1
  rw [h]
  norm_num [Window.new, pointF_sub_def, pointF_div_def]

/-- C2 (pan reversibility): for positive resolution height and zoom, in a Panning state
whose last recorded position is `a`, a pointer move to `b` followed by a pointer move
back to `a`, both with the primary button held, leaves the offset at its original value
and the last recorded position at `a`. -/
theorem pan_there_and_back (w : Window) (toB toA : QMouseEvent)
    (_hh : 0 < w.info.resolution.y) (_hz : 0 < w.info.zoom)
    (hpan : w.isPanning_ = true)
    (hB : toB.buttons &&& Qt.LeftButton ≠ 0) (hA : toA.buttons &&& Qt.LeftButton ≠ 0)
    (hback : toA.pos = w.lastMousePos_) :
    (mouseMoveEvent (mouseMoveEvent w toB) toA).info.offset = w.info.offset ∧
    (mouseMoveEvent (mouseMoveEvent w toB) toA).lastMousePos_ = w.lastMousePos_ ∧
    (mouseMoveEvent (mouseMoveEvent w toB) toA).info = w.info := by
  have h1 : mouseMoveEvent w toB =
      ({ w with
          lastMousePos_ := toB.pos
          info := { w.info with
            offset := w.info.offset -
              (2 : ℚ) * ({ (toB.pos - w.lastMousePos_).toPointF with
                  y := -(toB.pos - w.lastMousePos_).toPointF.y } : QPointF) /
                (w.info.resolution.y * w.info.zoom) } } : Window).emit .update := by
    unfold mouseMoveEvent
    rw [if_pos ⟨hpan, hB⟩]
  rw [h1]
  unfold mouseMoveEvent
  rw [if_pos ⟨hpan, hA⟩]
  have hoff : ∀ o : QPointF, o -
        (2 : ℚ) * ({ (toB.pos - w.lastMousePos_).toPointF with
            y := -(toB.pos - w.lastMousePos_).toPointF.y } : QPointF) /
          (w.info.resolution.y * w.info.zoom) -
        (2 : ℚ) * ({ (toA.pos - toB.pos).toPointF with
            y := -(toA.pos - toB.pos).toPointF.y } : QPointF) /
          (w.info.resolution.y * w.info.zoom) = o := by
    intro o
    cases o
    rw [hback]
    simp only [QPoint.toPointF, point_sub_def, pointF_sub_def, pointF_div_def,
      pointF_smul_def, QPointF.mk.injEq]
    push_cast
    constructor <;> ring
  refine ⟨?_, ?_, ?_⟩
  · exact hoff _
  · exact hback
  · simp only [emit_info, Window.emit]
    rw [hoff]

theorem pan_there_and_back_witness :
    (mouseMoveEvent (mouseMoveEvent { Window.new 0 with isPanning_ := true }
      ⟨0, 1, ⟨37, -5⟩⟩) ⟨0, 1, ⟨0, 0⟩⟩).info.offset = ⟨0, 0⟩ :=
  (pan_there_and_back { Window.new 0 with isPanning_ := true } ⟨0, 1, ⟨37, -5⟩⟩ ⟨0, 1, ⟨0, 0⟩⟩
    (by norm_num [Window.new]) (by norm_num [Window.new]) rfl (by decide) (by decide) rfl).1

/-! ## Aspect correction -/

/-- C6 (aspect correction): for positive resolution `(w, h)` and zoom, the fractal point
computed for the cursor in `wheelEvent` is the specification mapping `pixelToFractal`, and
its X coordinate satisfies `X - offset.x = (2*p.x/w - 1) * (w/h) / zoom`.  Hence, for equal
offset and zoom and cursor positions at the same normalized horizontal position, resolution
(800, 400) gives an X displacement from the centre exactly twice that of (400, 400), and
the same Y coordinate; in particular at the left edges (displacements `-2/zoom` and
`-1/zoom`) and at the right edges (`2/zoom` and `1/zoom`). -/
theorem currentCursorPos_aspect :
    (∀ (info : Info) (p : QPointF),
      0 < info.resolution.x → 0 < info.resolution.y → 0 < info.zoom →
      currentCursorPos info p = pixelToFractal p info.resolution info.offset info.zoom ∧
      (currentCursorPos info p).x - info.offset.x =
        (2 * p.x / info.resolution.x - 1) * (info.resolution.x / info.resolution.y)
          / info.zoom) ∧
    (∀ (offset : QPointF) (zoom : ℚ) (maxIterations : Int) (p q : QPointF),
      0 < zoom → 2 * p.x / 800 - 1 = 2 * q.x / 400 - 1 → p.y = q.y →
      (currentCursorPos ⟨⟨800, 400⟩, offset, zoom, maxIterations⟩ p).x - offset.x =
        2 * ((currentCursorPos ⟨⟨400, 400⟩, offset, zoom, maxIterations⟩ q).x - offset.x) ∧
      (currentCursorPos ⟨⟨800, 400⟩, offset, zoom, maxIterations⟩ p).y =
        (currentCursorPos ⟨⟨400, 400⟩, offset, zoom, maxIterations⟩ q).y) ∧
    (∀ (offset : QPointF) (zoom : ℚ) (maxIterations : Int) (y : ℚ),
      0 < zoom →
      (currentCursorPos ⟨⟨800, 400⟩, offset, zoom, maxIterations⟩ ⟨0, y⟩).x - offset.x
        = -2 / zoom ∧
      (currentCursorPos ⟨⟨400, 400⟩, offset, zoom, maxIterations⟩ ⟨0, y⟩).x - offset.x
        = -1 / zoom ∧
      (currentCursorPos ⟨⟨800, 400⟩, offset, zoom, maxIterations⟩ ⟨800, y⟩).x - offset.x
        = 2 / zoom ∧
      (currentCursorPos ⟨⟨400, 400⟩, offset, zoom, maxIterations⟩ ⟨400, y⟩).x - offset.x
        = 1 / zoom) := by
  refine ⟨?_, ?_, ?_⟩
  · intro info p _ _ _
    refine ⟨rfl, ?_⟩
    simp only [currentCursorPos, ndc, pointF_add_def, pointF_div_def]
    ring
  · intro offset zoom maxIterations p q hz hx hy
    have hx2 : p.x = 2 * q.x := by linarith
    simp only [currentCursorPos, ndc, pointF_add_def, pointF_div_def, hx2, hy]
    constructor
    · field_simp
      ring
    · trivial
  · intro offset zoom maxIterations y hz
    simp only [currentCursorPos, ndc, pointF_add_def, pointF_div_def]
    refine ⟨?_, ?_, ?_, ?_⟩ <;> field_simp <;> ring

theorem currentCursorPos_aspect_witness :
    (currentCursorPos ⟨⟨800, 400⟩, ⟨3, 7⟩, 2, 100⟩ ⟨600, 100⟩).x - 3 =
      2 * ((currentCursorPos ⟨⟨400, 400⟩, ⟨3, 7⟩, 2, 100⟩ ⟨300, 100⟩).x - 3) ∧
    (currentCursorPos ⟨⟨800, 400⟩, ⟨3, 7⟩, 2, 100⟩ ⟨600, 100⟩).y =
      (currentCursorPos ⟨⟨400, 400⟩, ⟨3, 7⟩, 2, 100⟩ ⟨300, 100⟩).y :=
  currentCursorPos_aspect.2.1 ⟨3, 7⟩ 2 100 ⟨600, 100⟩ ⟨300, 100⟩
    (by norm_num) (by norm_num) rfl

/-! ## Performance sampler -/

theorem stdRound_of_nonneg {x : ℚ} (hx : 0 ≤ x) : stdRound x = round x := by
  unfold stdRound
  rw [if_pos hx, round_eq]

/-- C3 (FPS window semantics), as the program behaves: let `n` be the frame count, `e₁` the
milliseconds since the window start read by `timer_.elapsed()` and `e₂` those read by the
later `timer_.restart()` when the finalize action of `captureMetrics` runs.  If `e₁ ≥ 1000`
the action sets `fps = round q`, where `q` is the single precision quotient
`float(n) / (float(e₂) / 1000.0f)`, resets the frame counter to 0, restarts the window at
the second reading and emits exactly one `updateUI` notification (and nothing else); for
`n ≤ 2 ^ 20` and `e₂ < 2 ^ 63` the value published is less than 1 away from
`n / (e₂ / 1000)` and at most 1 away from `round (n / (e₂ / 1000))`, and a window of exactly
1000 ms with `n ≤ 2 ^ 24` publishes `n`.  If `e₁ < 1000` the action changes nothing: fps and
frame counter keep their values and nothing is emitted.  In particular `n = 60` with both
readings 1000 publishes `fps = 60`, and `n = 30, e₁ = 500` publishes nothing. -/
theorem captureMetrics_window (w : Window) (tickElapsed tickRestart : Int)
    (hmono : tickElapsed ≤ tickRestart) :
    (1000 ≤ tickElapsed - w.timer_ →
      ((captureMetrics w tickElapsed tickRestart).fps : Int) =
        round (f32 (f32 (w.frameCount_ : ℚ) /
          f32 (f32 ((tickRestart - w.timer_ : Int) : ℚ) / 1000))) ∧
      (captureMetrics w tickElapsed tickRestart).frameCount_ = 0 ∧
      (captureMetrics w tickElapsed tickRestart).timer_ = tickRestart ∧
      (captureMetrics w tickElapsed tickRestart).effects = w.effects ++ [Effect.updateUI]) ∧
    (1000 ≤ tickElapsed - w.timer_ → w.frameCount_ ≤ 2 ^ 20 →
      tickRestart - w.timer_ < 2 ^ 63 →
      |((captureMetrics w tickElapsed tickRestart).fps : ℚ) -
          (w.frameCount_ : ℚ) / (((tickRestart - w.timer_ : Int) : ℚ) / 1000)| < 1 ∧
      |((captureMetrics w tickElapsed tickRestart).fps : Int) -
          round ((w.frameCount_ : ℚ) / (((tickRestart - w.timer_ : Int) : ℚ) / 1000))| ≤ 1) ∧
    (tickElapsed - w.timer_ = 1000 → tickRestart = tickElapsed → w.frameCount_ ≤ 2 ^ 24 →
      (captureMetrics w tickElapsed tickRestart).fps = w.frameCount_) ∧
    (tickElapsed - w.timer_ < 1000 →
      (captureMetrics w tickElapsed tickRestart).fps = w.fps ∧
      (captureMetrics w tickElapsed tickRestart).frameCount_ = w.frameCount_ ∧
      (captureMetrics w tickElapsed tickRestart).effects = w.effects ∧
      captureMetrics w tickElapsed tickRestart = w) ∧
    (w.frameCount_ = 60 → tickElapsed - w.timer_ = 1000 → tickRestart = tickElapsed →
      (captureMetrics w tickElapsed tickRestart).fps = 60 ∧
      (captureMetrics w tickElapsed tickRestart).effects = w.effects ++ [Effect.updateUI]) ∧
    (w.frameCount_ = 30 → tickElapsed - w.timer_ = 500 →
      (captureMetrics w tickElapsed tickRestart).fps = w.fps ∧
      (captureMetrics w tickElapsed tickRestart).effects = w.effects) := by
  have hclose : 1000 ≤ tickElapsed - w.timer_ →
      captureMetrics w tickElapsed tickRestart =
        ({ w with
            timer_ := tickRestart
            fps := (stdRound (f32 (f32 (w.frameCount_ : ℚ) /
              f32 (f32 ((tickRestart - w.timer_ : Int) : ℚ) / 1000)))).toNat
            frameCount_ := 0 } : Window).emit .updateUI := by
    intro h
    unfold captureMetrics
    rw [if_pos (ge_iff_le.mpr h)]
  have hopen : tickElapsed - w.timer_ < 1000 → captureMetrics w tickElapsed tickRestart = w := by
    intro h
    unfold captureMetrics
    rw [if_neg (by simpa using h)]
  have hq0 : 1000 ≤ tickElapsed - w.timer_ →
      (0 : ℚ) ≤ f32 (f32 (w.frameCount_ : ℚ) /
        f32 (f32 ((tickRestart - w.timer_ : Int) : ℚ) / 1000)) := by
    intro h
    have he : (0 : ℚ) ≤ ((tickRestart - w.timer_ : Int) : ℚ) := by
      exact_mod_cast (by omega : 0 ≤ tickRestart - w.timer_)
    exact f32_nonneg _ (div_nonneg (f32_nonneg _ (Nat.cast_nonneg _))
      (f32_nonneg _ (div_nonneg (f32_nonneg _ he) (by norm_num))))
  have hfps : 1000 ≤ tickElapsed - w.timer_ →
      ((captureMetrics w tickElapsed tickRestart).fps : Int) =
        stdRound (f32 (f32 (w.frameCount_ : ℚ) /
          f32 (f32 ((tickRestart - w.timer_ : Int) : ℚ) / 1000))) := by
    intro h
    rw [hclose h]
    show ((stdRound _).toNat : Int) = _
    rw [Int.toNat_of_nonneg]
    rw [stdRound_of_nonneg (hq0 h), round_eq]
    exact Int.floor_nonneg.mpr (by linarith [hq0 h])
  have hexact : tickElapsed - w.timer_ = 1000 → tickRestart = tickElapsed →
      w.frameCount_ ≤ 2 ^ 24 →
      (captureMetrics w tickElapsed tickRestart).fps = w.frameCount_ := by
    intro he hsame hn
    have h := hfps (by omega)
    have hthousand : f32 (1000 : ℚ) = 1000 := by
      have := f32_natCast_exact 1000 (by norm_num)
      simpa using this
    have hone : f32 (1 : ℚ) = 1 := by
      have := f32_natCast_exact 1 (by norm_num)
      simpa using this
    have hq : f32 (f32 (w.frameCount_ : ℚ) /
        f32 (f32 ((tickRestart - w.timer_ : Int) : ℚ) / 1000)) = (w.frameCount_ : ℚ) := by
      rw [hsame, he]
      norm_num [hthousand, hone, f32_natCast_exact w.frameCount_ hn]
    rw [hq] at h
    have hr : stdRound (w.frameCount_ : ℚ) = (w.frameCount_ : Int) := by
      rw [stdRound_of_nonneg (Nat.cast_nonneg _)]
      have : ((w.frameCount_ : Int) : ℚ) = (w.frameCount_ : ℚ) := by push_cast; rfl
      rw [← this, round_intCast]
    rw [hr] at h
    exact_mod_cast h
  refine ⟨?_, ?_, hexact, ?_, ?_, ?_⟩
  · intro h
    refine ⟨?_, ?_, ?_, ?_⟩
    · rw [hfps h, stdRound_of_nonneg (hq0 h)]
    · rw [hclose h]; rfl
    · rw [hclose h]; rfl
    · rw [hclose h]; rfl
  · intro h hn he2
    have herr := rate_error w.frameCount_ (tickRestart - w.timer_) hn (by omega) he2
    have hround := stdRound_error _ (hq0 h)
    have hcast : ((captureMetrics w tickElapsed tickRestart).fps : ℚ) =
        ((stdRound (f32 (f32 (w.frameCount_ : ℚ) /
          f32 (f32 ((tickRestart - w.timer_ : Int) : ℚ) / 1000))) : Int) : ℚ) := by
      rw [← hfps h]
      push_cast
      rfl
    have hfpsInt := hfps h
    have h1 := abs_le.mp herr
    have h2 := abs_le.mp hround
    have hnear : |((captureMetrics w tickElapsed tickRestart).fps : ℚ) -
          (w.frameCount_ : ℚ) / (((tickRestart - w.timer_ : Int) : ℚ) / 1000)| < 1 := by
      rw [hcast, abs_lt]
      constructor <;> linarith [h1.1, h1.2, h2.1, h2.2]
    refine ⟨hnear, ?_⟩
    have h3 := abs_le.mp (abs_sub_round
      ((w.frameCount_ : ℚ) / (((tickRestart - w.timer_ : Int) : ℚ) / 1000)))
    have h4 := abs_lt.mp hnear
    have h5 : |(((captureMetrics w tickElapsed tickRestart).fps : Int) : ℚ) -
        ((round ((w.frameCount_ : ℚ) / (((tickRestart - w.timer_ : Int) : ℚ) / 1000)) : Int)
          : ℚ)| < 2 := by
      rw [abs_lt]
      have hc : (((captureMetrics w tickElapsed tickRestart).fps : Int) : ℚ) =
          ((captureMetrics w tickElapsed tickRestart).fps : ℚ) := by push_cast; rfl
      rw [hc]
      constructor <;> linarith [h3.1, h3.2, h4.1, h4.2]
    have h6 : |((captureMetrics w tickElapsed tickRestart).fps : Int) -
        round ((w.frameCount_ : ℚ) / (((tickRestart - w.timer_ : Int) : ℚ) / 1000))| < 2 := by
      exact_mod_cast h5
    omega
  · intro h
    rw [hopen h]
    exact ⟨rfl, rfl, rfl, rfl⟩
  · intro hn he hsame
    refine ⟨?_, ?_⟩
    · rw [hexact he hsame (by rw [hn]; norm_num), hn]
    · rw [hclose (by omega)]; rfl
  · intro _ he
    rw [hopen (by omega)]
    exact ⟨rfl, rfl⟩

theorem captureMetrics_window_witness :
    (captureMetrics { Window.new 0 with frameCount_ := 60 } 1000 1000).fps = 60 ∧
    (captureMetrics { Window.new 0 with frameCount_ := 60 } 1000 1000).effects
      = [Effect.updateUI] ∧
    (captureMetrics { Window.new 0 with frameCount_ := 30 } 500 501).effects = [] :=
  ⟨((captureMetrics_window { Window.new 0 with frameCount_ := 60 } 1000 1000 (by decide)).2.2.2.2.1
      rfl (by decide) rfl).1,
   ((captureMetrics_window { Window.new 0 with frameCount_ := 60 } 1000 1000 (by decide)).2.2.2.2.1
      rfl (by decide) rfl).2,
   ((captureMetrics_window { Window.new 0 with frameCount_ := 30 } 500 501 (by decide)).2.2.2.2.2
      rfl (by decide)).2⟩

/-- C3 fails as stated: with 64 frames counted and both clock readings 1024 ms after the
window start, the value published is 62, while `round (64 / (1024 / 1000)) = round 62.5`
is 63; the single precision quotient is `16383999 / 262144`, just below 62.5. -/
theorem captureMetrics_float_quotient :
    (captureMetrics { Window.new 0 with frameCount_ := 64 } 1024 1024).fps = 62 ∧
    (captureMetrics { Window.new 0 with frameCount_ := 64 } 1024 1024).effects
      = [Effect.updateUI] ∧
    round ((64 : ℚ) / ((1024 : ℚ) / 1000)) = 63 := by
  have h1024 : f32 (1024 : ℚ) = 1024 := by
    have := f32_natCast_exact 1024 (by norm_num)
    simpa using this
  have h64 : f32 (64 : ℚ) = 64 := by
    have := f32_natCast_exact 64 (by norm_num)
    simpa using this
  have hsec : f32 ((1024 : ℚ) / 1000) = 8589935 / 8388608 := by
    rw [f32_of_bounds _ 0 (by norm_num) (by norm_num [abs_of_pos]) (by norm_num [abs_of_pos])]
    norm_num [roundTiesEven]
  have hquot : f32 ((64 : ℚ) / (8589935 / 8388608)) = 16383999 / 262144 := by
    rw [f32_of_bounds _ 5 (by norm_num) (by norm_num [abs_of_pos]) (by norm_num [abs_of_pos])]
    norm_num [roundTiesEven]
  have hq : f32 (f32 ((64 : Nat) : ℚ) / f32 (f32 (((1024 - 0 : Int) : Int) : ℚ) / 1000))
      = 16383999 / 262144 := by
    have e1 : (((1024 - 0 : Int) : Int) : ℚ) = 1024 := by norm_num
    have e2 : ((64 : Nat) : ℚ) = 64 := by norm_num
    rw [e1, e2, h1024, h64, hsec, hquot]
  refine ⟨?_, ?_, ?_⟩
  · unfold captureMetrics
    rw [if_pos (by decide)]
    show (stdRound (f32 (f32 ((64 : Nat) : ℚ) /
      f32 (f32 (((1024 - 0 : Int) : Int) : ℚ) / 1000)))).toNat = 62
    rw [hq]
    norm_num [stdRound]
    rfl
  · unfold captureMetrics
    rw [if_pos (by decide)]
    rfl
  · norm_num [round_eq]

/-! ## Uniform sync -/

theorem updateUniform_unlinked (w : Window) (t : Int) (h : w.program_ ≠ some true) :
    updateUniform w t = w := by
  unfold updateUniform
  rw [if_neg h]

theorem emit_if (c : Prop) [Decidable c] (w : Window) (e : Effect) :
    (if c then w.emit e else w) = { w with effects := w.effects ++ (if c then [e] else []) } := by
  split_ifs <;> simp [Window.emit]

theorem updateUniform_effects (w : Window) (t : Int) (h : w.program_ = some true) :
    updateUniform w t = { w with effects := w.effects ++ expectedWrites w t } := by
  unfold updateUniform
  rw [if_pos h]
  simp only [emit_if]
  congr 1
  simp only [expectedWrites, uniformTable, List.append_assoc, List.append_cancel_left_eq]
  by_cases h1 : w.resolutionUniform_ = -1 <;> by_cases h2 : w.offsetUniform_ = -1 <;>
    by_cases h3 : w.zoomUniform_ = -1 <;> by_cases h4 : w.timeUniform_ = -1 <;>
    by_cases h5 : w.maxIterationsUniform_ = -1 <;>
    simp [List.filter, h1, h2, h3, h4, h5]

theorem updateUniform_info (w : Window) (t : Int) : (updateUniform w t).info = w.info := by
  by_cases h : w.program_ = some true
  · rw [updateUniform_effects w t h]
  · rw [updateUniform_unlinked w t h]

theorem tmod_bounds (t : Int) :
    -62830 < Int.tmod t 62830 ∧ Int.tmod t 62830 < 62830 ∧
      (0 ≤ t → 0 ≤ Int.tmod t 62830 ∧ Int.tmod t 62830 = t % 62830) ∧
      (t < 0 → Int.tmod t 62830 ≤ 0) := by
  have hlt : Int.tmod t 62830 < 62830 := Int.tmod_lt_of_pos t (by decide)
  rcases t with n | n
  · have h0 : 0 ≤ Int.tmod (Int.ofNat n) 62830 := Int.tmod_nonneg _ (Int.ofNat_nonneg n)
    refine ⟨by omega, hlt, fun _ => ⟨h0, Int.tmod_eq_emod (Int.ofNat_nonneg n) (by decide)⟩, ?_⟩
    intro h
    exact absurd (Int.ofNat_nonneg n) (not_le.mpr h)
  · have h : Int.tmod (Int.negSucc n) 62830 = -(((n + 1) % 62830 : Nat) : Int) := rfl
    have hm : (n + 1) % 62830 < 62830 := Nat.mod_lt _ (by decide)
    refine ⟨by omega, hlt, fun h0 => ?_, fun _ => by omega⟩
    have := Int.negSucc_lt_zero n
    omega

/-- C5 (uniform sync mapping), as the program behaves: for a linked program, every viewport
state, every clock reading `t` and every assignment of the five uniform locations,
`updateUniform` changes nothing but the list of collaborator calls, to which it appends
exactly the writes of the specification table: one `setUniformValue` for each slot whose
location is not `-1`, with the value of that slot (resolution, offset, zoom, the remainder of
`t` by 62830, maxIterations), and none for a slot whose location is `-1`.  The time value lies
in `[0, 62830)` whenever `t ≥ 0`, where it is `t mod 62830`; for every `t` it lies strictly
between `-62830` and `62830`. -/
theorem updateUniform_mapping (w : Window) (t : Int) (h : w.program_ = some true) :
    (updateUniform w t).effects = w.effects ++ expectedWrites w t ∧
    updateUniform w t = { w with effects := (updateUniform w t).effects } ∧
    (∀ (location : Int) (value : UniformValue),
      Effect.setUniformValue location value ∈ expectedWrites w t ↔
        location ≠ -1 ∧ (location, value) ∈ uniformTable w t) ∧
    (∀ e ∈ expectedWrites w t, ∃ location value, e = Effect.setUniformValue location value) ∧
    (0 ≤ t →
      Int.tmod t 62830 = t % 62830 ∧
      (0 : ℚ) ≤ ((Int.tmod t 62830 : Int) : ℚ) ∧ ((Int.tmod t 62830 : Int) : ℚ) < 62830) ∧
    ((-62830 : ℚ) < ((Int.tmod t 62830 : Int) : ℚ) ∧ ((Int.tmod t 62830 : Int) : ℚ) < 62830) := by
  have hb := tmod_bounds t
  refine ⟨?_, ?_, ?_, ?_, ?_, ?_⟩
  · rw [updateUniform_effects w t h]
  · rw [updateUniform_effects w t h]
  · intro location value
    simp only [expectedWrites, List.mem_map, List.mem_filter, Prod.exists, Effect.setUniformValue.injEq,
      decide_eq_true_eq]
    constructor
    · rintro ⟨l, v, ⟨hmem, hne⟩, rfl, rfl⟩
      exact ⟨hne, hmem⟩
    · rintro ⟨hne, hmem⟩
      exact ⟨location, value, ⟨hmem, hne⟩, rfl, rfl⟩
  · intro e he
    simp only [expectedWrites, List.mem_map, Prod.exists] at he
    obtain ⟨l, v, _, rfl⟩ := he
    exact ⟨l, v, rfl⟩
  · intro h0
    obtain ⟨h1, h2⟩ := hb.2.2.1 h0
    refine ⟨h2, ?_, ?_⟩
    · exact_mod_cast h1
    · exact_mod_cast hb.2.1
  · constructor
    · exact_mod_cast hb.1
    · exact_mod_cast hb.2.1

theorem updateUniform_mapping_witness :
    (updateUniform timeOnlyWindow 1700000062831).effects
      = [Effect.setUniformValue 3 (.float 19461)] := by
  have h := (updateUniform_mapping timeOnlyWindow 1700000062831 rfl).1
  rw [h]
  simp [expectedWrites, uniformTable, timeOnlyWindow, Window.new, List.filter]
  decide

/-- C5 fails as stated: with the clock one millisecond before the epoch (`t = -1`) the
value written to the `time` slot is `-1`, which is not in `[0, 62830)`. -/
theorem updateUniform_time_negative :
    (updateUniform timeOnlyWindow (-1)).effects = [Effect.setUniformValue 3 (.float (-1))] ∧
    ¬ ((0 : ℚ) ≤ -1 ∧ (-1 : ℚ) < 62830) := by
  constructor
  · rw [updateUniform_effects timeOnlyWindow (-1) rfl]
    simp [expectedWrites, uniformTable, timeOnlyWindow, Window.new, List.filter]
    decide
  · norm_num

/-! ## Render loop with an unlinked program -/

theorem captureMetrics_effects (w : Window) (tickElapsed tickRestart : Int) :
    (captureMetrics w tickElapsed tickRestart).effects =
      w.effects ++ (if tickElapsed - w.timer_ ≥ 1000 then [Effect.updateUI] else []) := by
  unfold captureMetrics
  split_ifs <;> simp [Window.emit]

theorem captureMetrics_info (w : Window) (tickElapsed tickRestart : Int) :
    (captureMetrics w tickElapsed tickRestart).info = w.info := by
  unfold captureMetrics
  split_ifs <;> rfl

/-- C4 (render with an unlinked program), as the program behaves: for every state whose
shader program exists but is not linked, `onRender` returns, performs no uniform write and
leaves the viewport state as it was; the calls it makes are the clear, the bind of program
and geometry, the draw call over the six quad indices (which is still issued), the two
releases, and after them at most the redraw request and the FPS notification. -/
theorem onRender_unlinked (w : Window) (msecsSinceEpoch tickElapsed tickRestart : Int)
    (h : w.program_ = some false) :
    ∃ (w' : Window) (rest : List Effect),
      onRender w msecsSinceEpoch tickElapsed tickRestart = some w' ∧
      w'.effects = w.effects ++
        [Effect.glClear, Effect.programBind, Effect.vaoBind, Effect.glDrawElements 6,
          Effect.vaoRelease, Effect.programRelease] ++ rest ∧
      (∀ e ∈ rest, e = Effect.update ∨ e = Effect.updateUI) ∧
      (∀ (location : Int) (value : UniformValue),
        Effect.setUniformValue location value ∉
          [Effect.glClear, Effect.programBind, Effect.vaoBind, Effect.glDrawElements 6,
            Effect.vaoRelease, Effect.programRelease] ++ rest) ∧
      w'.info = w.info := by
  have hrest : ∀ e ∈ (if w.animated_ = true then [Effect.update] else []) ++
      (if tickElapsed - w.timer_ ≥ 1000 then [Effect.updateUI] else []),
      e = Effect.update ∨ e = Effect.updateUI := by
    intro e he
    split_ifs at he <;> simp at he <;> simp [he]
  have hun : updateUniform (((w.emit .glClear).emit .programBind).emit .vaoBind) msecsSinceEpoch
      = ((w.emit .glClear).emit .programBind).emit .vaoBind :=
    updateUniform_unlinked _ _ (by simp [Window.emit, h])
  cases hres : onRender w msecsSinceEpoch tickElapsed tickRestart with
  | none => simp [onRender, h] at hres
  | some w' =>
    simp only [onRender, h, hun, Option.some.injEq] at hres
    subst hres
    refine ⟨_, (if w.animated_ = true then [Effect.update] else []) ++
        (if tickElapsed - w.timer_ ≥ 1000 then [Effect.updateUI] else []), rfl, ?_, hrest, ?_, ?_⟩
    · simp only [captureMetrics_effects, emit_if]
      simp [Window.emit, indices]
    · intro location value hmem
      rcases List.mem_append.mp hmem with hm | hm
      · simp at hm
      · rcases hrest _ hm with h1 | h1 <;> cases h1
    · rw [captureMetrics_info]
      split_ifs <;> simp only [Window.emit]

theorem onRender_unlinked_witness :
    ∃ (w' : Window) (rest : List Effect),
      onRender unlinkedWindow 5 16 16 = some w' ∧
      w'.effects = unlinkedWindow.effects ++
        [Effect.glClear, Effect.programBind, Effect.vaoBind, Effect.glDrawElements 6,
          Effect.vaoRelease, Effect.programRelease] ++ rest ∧
      (∀ e ∈ rest, e = Effect.update ∨ e = Effect.updateUI) ∧
      (∀ (location : Int) (value : UniformValue),
        Effect.setUniformValue location value ∉
          [Effect.glClear, Effect.programBind, Effect.vaoBind, Effect.glDrawElements 6,
            Effect.vaoRelease, Effect.programRelease] ++ rest) ∧
      w'.info = unlinkedWindow.info :=
  onRender_unlinked unlinkedWindow 5 16 16 rfl

/-- C4 fails as stated: rendering one frame with a program that is not linked still issues
the draw call, after the clear. -/
theorem onRender_unlinked_still_draws :
    (onRender unlinkedWindow 5 16 16).map Window.effects =
      some [Effect.glClear, Effect.programBind, Effect.vaoBind, Effect.glDrawElements 6,
        Effect.vaoRelease, Effect.programRelease, Effect.update] ∧
    Effect.glDrawElements 6 ∈
      [Effect.glClear, Effect.programBind, Effect.vaoBind, Effect.glDrawElements 6,
        Effect.vaoRelease, Effect.programRelease, Effect.update] := by
  constructor
  · simp [onRender, unlinkedWindow, Window.new, updateUniform, captureMetrics, Window.emit,
      indices]
  · simp

/-! ## Invariants of the viewport state -/

theorem onResize_info (w : Window) (width height : Nat) (t : Int) :
    (onResize w width height t).info =
      { w.info with resolution := ⟨f32 width, f32 height⟩ } := by
  unfold onResize
  simp only []
  split_ifs
  · rw [emit_info, updateUniform_info]
    rfl
  · rfl

theorem mousePressEvent_info (w : Window) (event : QMouseEvent) :
    (mousePressEvent w event).info = w.info := by
  unfold mousePressEvent
  split_ifs <;> rfl

theorem mouseReleaseEvent_info (w : Window) (event : QMouseEvent) :
    (mouseReleaseEvent w event).info = w.info := by
  unfold mouseReleaseEvent
  split_ifs <;> rfl

theorem mouseMoveEvent_zoom_resolution (w : Window) (event : QMouseEvent) :
    (mouseMoveEvent w event).info.zoom = w.info.zoom ∧
      (mouseMoveEvent w event).info.resolution = w.info.resolution := by
  unfold mouseMoveEvent
  split_ifs <;> exact ⟨rfl, rfl⟩

theorem wheelEvent_resolution (w : Window) (event : QWheelEvent) :
    (wheelEvent w event).info.resolution = w.info.resolution := by
  unfold wheelEvent
  simp only [emit_info]
  split_ifs <;> rfl

theorem wheelEvent_zoom (w : Window) (event : QWheelEvent) :
    (wheelEvent w event).info.zoom = w.info.zoom ∨
      (wheelEvent w event).info.zoom = w.info.zoom * 1.25 ∨
      (wheelEvent w event).info.zoom = w.info.zoom / 1.25 := by
  unfold wheelEvent
  simp only [emit_info]
  split_ifs
  · exact Or.inr (Or.inl rfl)
  · exact Or.inr (Or.inr rfl)
  · exact Or.inl rfl

theorem step_zoom (w : Window) (e : Event) :
    (step w e).info.zoom = w.info.zoom ∨
      (step w e).info.zoom = w.info.zoom * 1.25 ∨
      (step w e).info.zoom = w.info.zoom / 1.25 := by
  cases e with
  | mousePress event => exact Or.inl (by rw [step, mousePressEvent_info])
  | mouseMove event => exact Or.inl (mouseMoveEvent_zoom_resolution w event).1
  | mouseRelease event => exact Or.inl (by rw [step, mouseReleaseEvent_info])
  | wheel event => exact wheelEvent_zoom w event
  | resize width height t => exact Or.inl (by rw [step, onResize_info])
  | sliderChanged v => exact Or.inl rfl

theorem step_zoom_pos (w : Window) (e : Event) (h : 0 < w.info.zoom) :
    0 < (step w e).info.zoom := by
  rcases step_zoom w e with h1 | h1 | h1 <;> rw [h1]
  · exact h
  · exact mul_pos h (by norm_num)
  · exact div_pos h (by norm_num)

theorem step_resolution_pos (w : Window) (e : Event) (he : e.WellFormed)
    (h : 0 < w.info.resolution.x ∧ 0 < w.info.resolution.y) :
    0 < (step w e).info.resolution.x ∧ 0 < (step w e).info.resolution.y := by
  cases e with
  | mousePress event => rw [step, mousePressEvent_info]; exact h
  | mouseMove event => rw [step, (mouseMoveEvent_zoom_resolution w event).2]; exact h
  | mouseRelease event => rw [step, mouseReleaseEvent_info]; exact h
  | wheel event => rw [step, wheelEvent_resolution]; exact h
  | resize width height t =>
    rw [step, onResize_info]
    exact ⟨(f32_natCast_ge_one_iff width).mpr he.1 |> lt_of_lt_of_le one_pos,
      (f32_natCast_ge_one_iff height).mpr he.2 |> lt_of_lt_of_le one_pos⟩
  | sliderChanged v => exact h

theorem run_invariant (w : Window) (events : List Event) (hwf : ∀ e ∈ events, e.WellFormed)
    (hz : 0 < w.info.zoom) (hr : 0 < w.info.resolution.x ∧ 0 < w.info.resolution.y) :
    0 < (run w events).info.zoom ∧
      0 < (run w events).info.resolution.x ∧ 0 < (run w events).info.resolution.y := by
  induction events generalizing w with
  | nil => exact ⟨hz, hr⟩
  | cons e rest ih =>
    have he : e.WellFormed := hwf e (List.mem_cons_self e rest)
    have hrest : ∀ e' ∈ rest, e'.WellFormed := fun e' h' => hwf e' (List.mem_cons_of_mem e h')
    exact ih (step w e) hrest (step_zoom_pos w e hz) (step_resolution_pos w e he hr)

/-- C9 (zoom positivity): the constructed state has zoom 1; every event (pointer press,
move, release, wheel, resize, slider) leaves the zoom as it was, or multiplies it by 1.25,
or divides it by 1.25, so a positive zoom stays positive; hence zoom > 0 in every state
reached from the constructed state by a finite sequence of such events whose resizes have
positive dimensions. -/
theorem zoom_positive :
    (∀ tick : Int, (Window.new tick).info.zoom = 1 ∧ 0 < (Window.new tick).info.zoom) ∧
    (∀ (w : Window) (e : Event),
      (step w e).info.zoom = w.info.zoom ∨
      (step w e).info.zoom = w.info.zoom * 1.25 ∨
      (step w e).info.zoom = w.info.zoom / 1.25) ∧
    (∀ (w : Window) (e : Event), 0 < w.info.zoom → 0 < (step w e).info.zoom) ∧
    (∀ (tick : Int) (events : List Event), (∀ e ∈ events, e.WellFormed) →
      0 < (run (Window.new tick) events).info.zoom) := by
  have hinit : ∀ tick : Int, (Window.new tick).info.zoom = 1 := fun _ => rfl
  refine ⟨fun tick => ⟨hinit tick, by rw [hinit]; exact one_pos⟩, step_zoom, step_zoom_pos, ?_⟩
  intro tick events hwf
  refine (run_invariant (Window.new tick) events hwf (by rw [hinit]; exact one_pos) ?_).1
  constructor <;> norm_num [Window.new]

theorem zoom_positive_witness :
    (∀ e ∈ sampleSession, e.WellFormed) ∧ 0 < (run (Window.new 0) sampleSession).info.zoom :=
  ⟨by decide, zoom_positive.2.2.2 0 sampleSession (by decide)⟩

/-! ## Resolution under resize -/

/-- C10 fails as stated: `onResize` with width 0 and height 0 leaves resolution `(0, 0)`,
whose components are not `≥ 1`; nothing is clamped. -/
theorem onResize_zero_not_clamped :
    (onResize (Window.new 0) 0 0 0).info.resolution = ⟨0, 0⟩ ∧
    ¬ (1 ≤ (onResize (Window.new 0) 0 0 0).info.resolution.x ∧
        1 ≤ (onResize (Window.new 0) 0 0 0).info.resolution.y) := by
  have h : (onResize (Window.new 0) 0 0 0).info.resolution = ⟨0, 0⟩ := by
    rw [onResize_info]
    simp [f32_zero]
  rw [h]
  exact ⟨rfl, by norm_num⟩

/-- C10 (resolution under resize), as the program behaves: `onResize` stores the `float`
conversions of the width and height it is given, unclamped, and changes nothing else of the
viewport state; the stored pair is exactly `(width, height)` when both are at most `2 ^ 24`.
The resulting resolution has both components `≥ 1` exactly when the width and the height
passed are both `≥ 1`.  In every state reached from the constructed 640x480 state by a
finite sequence of press, move, release, wheel, slider and resize events whose resizes have
positive dimensions, both resolution components are `> 0`, and the divisors used by
`wheelEvent` (resolution width, resolution height, zoom) and by `mouseMoveEvent`
(`height * zoom`) are not zero. -/
theorem onResize_resolution :
    (∀ (w : Window) (width height : Nat) (t : Int),
      (onResize w width height t).info =
        { w.info with resolution := ⟨f32 width, f32 height⟩ }) ∧
    (∀ (w : Window) (width height : Nat) (t : Int), width ≤ 2 ^ 24 → height ≤ 2 ^ 24 →
      (onResize w width height t).info.resolution = ⟨(width : ℚ), (height : ℚ)⟩) ∧
    (∀ (w : Window) (width height : Nat) (t : Int),
      (1 ≤ (onResize w width height t).info.resolution.x ∧
        1 ≤ (onResize w width height t).info.resolution.y) ↔ (1 ≤ width ∧ 1 ≤ height)) ∧
    (∀ (tick : Int) (events : List Event), (∀ e ∈ events, e.WellFormed) →
      0 < (run (Window.new tick) events).info.resolution.x ∧
      0 < (run (Window.new tick) events).info.resolution.y ∧
      (run (Window.new tick) events).info.resolution.x ≠ 0 ∧
      (run (Window.new tick) events).info.resolution.y ≠ 0 ∧
      (run (Window.new tick) events).info.zoom ≠ 0 ∧
      (run (Window.new tick) events).info.resolution.y *
        (run (Window.new tick) events).info.zoom ≠ 0) := by
  refine ⟨onResize_info, ?_, ?_, ?_⟩
  · intro w width height t hw hh
    rw [onResize_info]
    show (⟨f32 width, f32 height⟩ : QPointF) = _
    rw [f32_natCast_exact width hw, f32_natCast_exact height hh]
  · intro w width height t
    rw [onResize_info]
    show (1 ≤ f32 (width : ℚ) ∧ 1 ≤ f32 (height : ℚ)) ↔ _
    rw [f32_natCast_ge_one_iff, f32_natCast_ge_one_iff]
  · intro tick events hwf
    obtain ⟨hz, hx, hy⟩ := run_invariant (Window.new tick) events hwf
      (by norm_num [Window.new]) (by constructor <;> norm_num [Window.new])
    exact ⟨hx, hy, hx.ne', hy.ne', hz.ne', (mul_pos hy hz).ne'⟩

theorem onResize_resolution_witness :
    (∀ e ∈ sampleSession, e.WellFormed) ∧
    0 < (run (Window.new 0) sampleSession).info.resolution.x ∧
    0 < (run (Window.new 0) sampleSession).info.resolution.y ∧
    (onResize (Window.new 0) 800 400 12345).info.resolution = ⟨800, 400⟩ :=
  ⟨by decide,
   (onResize_resolution.2.2.2 0 sampleSession (by decide)).1,
   (onResize_resolution.2.2.2 0 sampleSession (by decide)).2.1,
   (by
     have h := onResize_resolution.2.1 (Window.new 0) 800 400 12345 (by norm_num) (by norm_num)
     simpa using h)⟩

end FractalViewer
